import Mathlib

/-!
Verification of the anomaly-finding scripts of this repository
(`scripts/find_anomalies.py`, `scripts/create_summary.py`).

Lines of text are modelled as `List Char` (a Python `str` is a sequence of
code points).  The Python Unicode character-class predicates (`str.isalpha`,
`str.isupper`, `str.isdigit`, regex `\w`, `\s`, `\d`) are modelled on the
character fragment the scripts actually work with: ASCII, the basic Cyrillic
letters (U+0410–U+044F plus Ё/ё), and the typographic symbols named in the
script constant sets.  Characters outside this fragment are classified as
non-alphabetic / non-whitespace.
-/

namespace FindAnomalies

/-- Python `str.isdigit` restricted to ASCII decimal digits (the only digits
occurring in the script data). -/
def pyIsDigit (c : Char) : Bool := decide ('0' ≤ c ∧ c ≤ '9')

def asciiUpper (c : Char) : Bool := decide ('A' ≤ c ∧ c ≤ 'Z')

def asciiLower (c : Char) : Bool := decide ('a' ≤ c ∧ c ≤ 'z')

/-- ASCII Latin letter. -/
def asciiLetter (c : Char) : Bool := asciiUpper c || asciiLower c

/-- Upper-case basic Cyrillic letter А..Я (U+0410–U+042F). -/
def cyrUpper (c : Char) : Bool := decide (0x410 ≤ c.toNat ∧ c.toNat ≤ 0x42F)

/-- Lower-case basic Cyrillic letter а..я (U+0430–U+044F). -/
def cyrLower (c : Char) : Bool := decide (0x430 ≤ c.toNat ∧ c.toNat ≤ 0x44F)

/-- Python `str.isalpha`, on the modelled fragment
(ASCII letters, basic Cyrillic letters, Ё/ё). -/
def pyIsAlpha (c : Char) : Bool :=
  asciiLetter c || cyrUpper c || cyrLower c || decide (c = 'Ё') || decide (c = 'ё')

/-- Upper-case letter of the modelled fragment (for Python `str.isupper`). -/
def pyIsUpperChar (c : Char) : Bool := asciiUpper c || cyrUpper c || decide (c = 'Ё')

/-- Python / `re` whitespace (`\s`, `str.strip`) on the modelled fragment:
ASCII whitespace plus NBSP. -/
def pyIsSpace (c : Char) : Bool :=
  decide (c = ' ') || decide (c = '\t') || decide (c = '\n') || decide (c = '\r') ||
  decide (c = '\x0b') || decide (c = '\x0c') || decide (c = '\xa0')

/-- Regex `\w`: letters (modelled fragment), digits, underscore. -/
def pyIsWord (c : Char) : Bool := pyIsAlpha c || pyIsDigit c || decide (c = '_')

/-- Case folding used for `re.IGNORECASE` on the modelled fragment. -/
def lowerChar (c : Char) : Char :=
  if asciiUpper c then Char.ofNat (c.toNat + 32)
  else if cyrUpper c then Char.ofNat (c.toNat + 32)
  else if c = 'Ё' then 'ё'
  else c

/-- Python `str.upper` on ASCII letters (the scripts apply it to Latin-only
words). -/
def upperChar (c : Char) : Char :=
  if asciiLower c then Char.ofNat (c.toNat - 32) else c

/-- Python `str.strip()`: drop leading and trailing whitespace. -/
def pyStrip (l : List Char) : List Char :=
  ((l.dropWhile pyIsSpace).reverse.dropWhile pyIsSpace).reverse

/-- Python `str.isupper` of a string: at least one cased character and all
cased characters upper-case (on the modelled fragment all letters are cased). -/
def pyIsUpperStr (l : List Char) : Bool :=
  l.any pyIsAlpha && l.all (fun c => !pyIsAlpha c || pyIsUpperChar c)

/-- Python `str.isalpha` of a string: non-empty and all characters alphabetic. -/
def pyIsAlphaStr (l : List Char) : Bool := !l.isEmpty && l.all pyIsAlpha

/-! ### Constant character sets of `find_anomalies.py` (lines 14–17) -/

/-- The set `RUSSIAN_CHARS`: the source string has a doubled Ц, reproduced as-is;
note that it contains the ASCII digits as well as the Cyrillic letters. -/
def RUSSIAN_CHARS : List Char :=
  "АБВГДЕЁЖЗИЙКЛМНОПРСТУФХЦЦЧШЩЪЫЬЭЮЯабвгдеёжзийклмнопрстуфхцчшщъыьэюя0123456789".data

def PUNCTUATION : List Char := ".,;:!?-\"()[]\x7b\x7d«»—–…".data

def WHITESPACE_SET : List Char := " \n\r\t".data

def ALLOWED_CHARS : List Char := RUSSIAN_CHARS ++ PUNCTUATION ++ WHITESPACE_SET

/-! ### Chapter-title patterns (`CHAPTER_PATTERNS`, `is_likely_chapter_title`) -/

/-- A character matching `[IVXLCDM]` under `re.IGNORECASE`. -/
def romanChar (c : Char) : Bool :=
  decide (lowerChar c ∈ ['i', 'v', 'x', 'l', 'c', 'd', 'm'])

/-- Pattern `^[IVXLCDM]+$` (IGNORECASE) against a whole string. -/
def matchRomanLine (s : List Char) : Bool := !s.isEmpty && s.all romanChar

/-- A character matching `[IVXLCDM\d]` under `re.IGNORECASE`. -/
def chapterNumChar (c : Char) : Bool := romanChar c || pyIsDigit c

/-- Case-insensitive literal match of `pat` against the start of the input;
returns the remaining input on success (models the literal part of an
`re.match` with `re.IGNORECASE`). -/
def matchCILit : List Char → List Char → Option (List Char)
  | [], rest => some rest
  | _ :: _, [] => none
  | p :: ps, c :: cs => if lowerChar c = lowerChar p then matchCILit ps cs else none

/-- Tail pattern `\s+[IVXLCDM\d]+` with nothing after it: at least one whitespace character
and the first non-whitespace character is in the class.  (Since the class and
`\s` are disjoint, backtracking over the greedy `\s+` reduces to exactly
this condition.) -/
def spacePlusNum (rest : List Char) : Bool :=
  !(rest.takeWhile pyIsSpace).isEmpty &&
    (match rest.dropWhile pyIsSpace with
     | [] => false
     | c :: _ => chapterNumChar c)

/-- Tail pattern `\s*[IVXLCDM\d]+` with nothing after it. -/
def spaceStarNum (rest : List Char) : Bool :=
  match rest.dropWhile pyIsSpace with
  | [] => false
  | c :: _ => chapterNumChar c

/-- Pattern `^ГЛАВА\s+[IVXLCDM\d]+` (IGNORECASE, unanchored at the end). -/
def matchGlava (s : List Char) : Bool :=
  match matchCILit "глава".data s with
  | some rest => spacePlusNum rest
  | none => false

/-- Pattern `^ЧАСТЬ\s+[IVXLCDM\d]+` (IGNORECASE, unanchored at the end). -/
def matchChast (s : List Char) : Bool :=
  match matchCILit "часть".data s with
  | some rest => spacePlusNum rest
  | none => false

/-- Pattern `^[ГЧ]\s*[IVXLCDM\d]+` (IGNORECASE, unanchored at the end). -/
def matchGorCh (s : List Char) : Bool :=
  match s with
  | [] => false
  | c :: rest => (decide (lowerChar c = 'г') || decide (lowerChar c = 'ч')) && spaceStarNum rest

/-- Pattern `^\d+$`. -/
def matchDigitsLine (s : List Char) : Bool := !s.isEmpty && s.all pyIsDigit

/-- Test `any(re.match(p, stripped, re.IGNORECASE) for p in CHAPTER_PATTERNS)`. -/
def matchesAnyChapter (s : List Char) : Bool :=
  matchRomanLine s || matchGlava s || matchChast s || matchGorCh s || matchDigitsLine s

/-- Check for short all-caps titles: length below 30, upper-case, and
alphabetic once the spaces are removed. -/
def shortCapsTitle (s : List Char) : Bool :=
  decide (s.length < 30) && pyIsUpperStr s && pyIsAlphaStr (s.filter (fun c => !decide (c = ' ')))

/-- Function `is_likely_chapter_title` (find_anomalies.py lines 28–42). -/
def is_likely_chapter_title (line : List Char) : Bool :=
  if (pyStrip line).isEmpty then false
  else matchesAnyChapter (pyStrip line) || shortCapsTitle (pyStrip line)

/-! ### `is_base64_like` (lines 44–55) -/

def BASE64_CHARS : List Char :=
  "ABCDEFGHIJKLMNOPQRSTUVWXYZabcdefghijklmnopqrstuvwxyz0123456789+/=".data

/-- Function `is_base64_like` (lines 44–55): length at least 40, every character of the
stripped text in the base64 alphabet, at least one `=` or `/`, and the
stripped text strictly longer than 40 characters. -/
def is_base64_like (text : List Char) : Bool :=
  if text.length < 40 then false
  else
    (pyStrip text).all (fun c => decide (c ∈ BASE64_CHARS)) &&
    (decide ('=' ∈ text) || decide ('/' ∈ text)) &&
    decide (40 < (pyStrip text).length)

/-! ### `is_normal_latin_usage` (lines 57–75) -/

def COMMON_ABBREVS : List (List Char) :=
  ["ISBN".data, "ISBN:".data, "http".data, "https".data, "www".data,
   "com".data, "ru".data, "org".data, "net".data]

/-- Pattern `^\([a-zA-Z]{1,4}\)$`. -/
def matchParenAbbr (s : List Char) : Bool :=
  match s with
  | '(' :: rest =>
      decide (rest.getLast? = some ')') &&
      decide (1 ≤ rest.dropLast.length) && decide (rest.dropLast.length ≤ 4) &&
      rest.dropLast.all asciiLetter
  | _ => false

/-- Model of `re.findall` with the pattern `\b[A-Za-z]+\b`: the maximal runs
of ASCII letters whose neighbours (when present) are not word characters.  Scanned as a state
machine: `prevW` records whether the previously scanned character was a word
character; `cur` is `some run` (reversed) while inside a run of ASCII letters
that started at a word boundary, and `none` otherwise.  A collected run is a
match when it is terminated by a non-word character or by the end of the
line. -/
def latinWordsAux (prevW : Bool) (cur : Option (List Char)) : List Char → List (List Char)
  | [] =>
      match cur with
      | some run => [run.reverse]
      | none => []
  | c :: cs =>
      if asciiLetter c then
        match cur with
        | some run => latinWordsAux true (some (c :: run)) cs
        | none =>
            if prevW then latinWordsAux true none cs
            else latinWordsAux true (some [c]) cs
      else
        match cur with
        | some run =>
            if pyIsWord c then latinWordsAux (pyIsWord c) none cs
            else run.reverse :: latinWordsAux (pyIsWord c) none cs
        | none => latinWordsAux (pyIsWord c) none cs

def latin_words (line : List Char) : List (List Char) := latinWordsAux false none line

/-- Function `is_normal_latin_usage` (lines 57–75). -/
def is_normal_latin_usage (line : List Char) : Bool :=
  matchRomanLine (pyStrip line) ||
  matchParenAbbr (pyStrip line) ||
  (!(latin_words line).isEmpty &&
    (latin_words line).all
      (fun w => decide (w.map upperChar ∈ COMMON_ABBREVS) || decide (w.length ≤ 3)))

/-! ### `find_anomalies_in_line` (lines 77–143) -/

inductive AnomalyType where
  | token_like
  | latin_in_russian
  | unusual_symbols
  | multiple_unusual_chars
deriving DecidableEq, Repr

/-- An anomaly record.  In the Python source the records are dictionaries;
`chars` holds the `(offset, char)` detail pairs (the additional `ord(c)` /
`hex(ord(c))` components stored by the source are functions of the char and
are omitted; records without a chars key in the source are modelled with
`chars = []`). -/
structure AnomalyRecord where
  type : AnomalyType
  line_num : Nat
  chars : List (Nat × Char)
  line : List Char
deriving DecidableEq, Repr

/-- Test `c.isalpha() and ord(c) < 128` (line 107). -/
def pyAsciiAlpha (c : Char) : Bool := pyIsAlpha c && decide (c.toNat < 128)

/-- The `(i, char)` pairs of characters of the line outside `ALLOWED_CHARS`
(lines 97–100). -/
def suspiciousChars (line : List Char) : List (Nat × Char) :=
  line.enum.filter (fun p => !decide (p.2 ∈ ALLOWED_CHARS))

/-- Test `any(c in RUSSIAN_CHARS for c in line)` (line 103). -/
def hasRussian (line : List Char) : Bool :=
  line.any (fun c => decide (c ∈ RUSSIAN_CHARS))

/-- List `latin_chars` (line 107): suspicious characters that are ASCII letters. -/
def latin_chars (line : List Char) : List (Nat × Char) :=
  (suspiciousChars line).filter (fun p => pyAsciiAlpha p.2)

/-- Set `normal_symbols` (line 122). -/
def NORMAL_SYMBOLS : List Char := "—–…‹›‚„«»°№§".data

/-- List `other_chars` (lines 119–123): suspicious characters that are not ASCII
letters, with the known typographic symbols removed. -/
def other_chars (line : List Char) : List (Nat × Char) :=
  ((suspiciousChars line).filter (fun p => !pyAsciiAlpha p.2)).filter
    (fun p => !decide (p.2 ∈ NORMAL_SYMBOLS))

/-- The records produced by the character-set check (lines 96–131). -/
def charsetRecords (line : List Char) (line_num : Nat) : List AnomalyRecord :=
  if (suspiciousChars line).isEmpty then []
  else if hasRussian line then
    (if !(latin_chars line).isEmpty && !is_normal_latin_usage line &&
        decide (3 < (latin_chars line).length)
     then [⟨.latin_in_russian, line_num, (latin_chars line).take 10, pyStrip line⟩]
     else []) ++
    (if !(other_chars line).isEmpty
     then [⟨.unusual_symbols, line_num, (other_chars line).take 10, pyStrip line⟩]
     else [])
  else []

/-- The punctuation part of the character class of the run-length regex
(line 135): `.,;:!?\-"()\[\]{}«»—–…°№§`. -/
def MULT_CLASS_PUNCT : List Char := ".,;:!?-\"()[]\x7b\x7d«»—–…°№§".data

/-- A character matching `[^\w\sЀ-ӿ.,;:!?\-"()\[\]{}«»—–…°№§]`. -/
def unusualClassChar (c : Char) : Bool :=
  !(pyIsWord c || pyIsSpace c ||
    decide (0x400 ≤ c.toNat ∧ c.toNat ≤ 0x4FF) ||
    decide (c ∈ MULT_CLASS_PUNCT))

/-- Model of the `re.search` run-length test: three consecutive characters of the class
occur somewhere in the line. -/
def hasRun3 : List Char → Bool
  | a :: b :: c :: rest =>
      (unusualClassChar a && unusualClassChar b && unusualClassChar c) ||
      hasRun3 (b :: c :: rest)
  | _ => false

/-- Function `find_anomalies_in_line` (lines 77–143). -/
def find_anomalies_in_line (line : List Char) (line_num : Nat) : List AnomalyRecord :=
  if (pyStrip line).isEmpty || is_likely_chapter_title line then []
  else if is_base64_like (pyStrip line) then
    [⟨.token_like, line_num, [], pyStrip line⟩]
  else
    charsetRecords line line_num ++
    (if hasRun3 line then [⟨.multiple_unusual_chars, line_num, [], pyStrip line⟩] else [])

/-! ### `analyze_file` (lines 145–175) and `main` (lines 177–267) -/

structure FileResult where
  total_lines : Nat
  anomalies : List AnomalyRecord
deriving DecidableEq, Repr

/-- The key used by the de-duplication in `analyze_file` (line 167). -/
def recKey (r : AnomalyRecord) : Nat × AnomalyType := (r.line_num, r.type)

/-- The de-duplication loop of `analyze_file` (lines 160–170): keep a record
only if its `(line_num, type)` key has not been seen yet. -/
def dedupAux (seen : List (Nat × AnomalyType)) : List AnomalyRecord → List AnomalyRecord
  | [] => []
  | a :: rest =>
      if recKey a ∈ seen then dedupAux seen rest
      else a :: dedupAux (recKey a :: seen) rest

/-- All records produced by running the classifier over the lines, numbered
from 1 (`enumerate(lines, 1)`). -/
def allLineRecords (lines : List (List Char)) : List AnomalyRecord :=
  ((List.enumFrom 1 lines).map (fun p => find_anomalies_in_line p.2 p.1)).flatten

/-- The per-file analysis of `analyze_file` once the lines are read
(lines 159–175). -/
def analyze_lines (lines : List (List Char)) : FileResult :=
  ⟨lines.length, dedupAux [] (allLineRecords lines)⟩

/-- Outcome of the `open`/decode attempts of `analyze_file` (lines 147–157).
The read strategy — UTF-8 first, cp1251 retried only after a
`UnicodeDecodeError` — is encoded in the constructors. -/
inductive ReadOutcome where
  | utf8Ok : List (List Char) → ReadOutcome
  | cp1251Ok : List (List Char) → ReadOutcome
  | decodeRetryFailed : String → ReadOutcome
  | readFailed : String → ReadOutcome

/-- Function `analyze_file`: either a `FileResult` or the error message built in the
corresponding `except` branch. -/
def analyze_file : ReadOutcome → Except String FileResult
  | .utf8Ok lines => .ok (analyze_lines lines)
  | .cp1251Ok lines => .ok (analyze_lines lines)
  | .decodeRetryFailed e => .error ("Не удалось прочитать файл: " ++ e)
  | .readFailed e => .error ("Ошибка при чтении файла: " ++ e)

/-- The per-file loop of `main` (lines 192–232): every file is analyzed;
an error result prints a marker and the loop continues with the next file. -/
def runAll (files : List (String × ReadOutcome)) : List (String × Except String FileResult) :=
  files.map (fun f => (f.1, analyze_file f.2))

/-- List `files_with_anomalies` as collected by `main`: files whose analysis
succeeded and found at least one anomaly; error files are skipped. -/
def files_with_anomalies (files : List (String × ReadOutcome)) :
    List (String × List AnomalyRecord) :=
  files.filterMap (fun f =>
    match analyze_file f.2 with
    | .ok r => if !r.anomalies.isEmpty then some (f.1, r.anomalies) else none
    | .error _ => none)

/-! ### `create_summary.py` (lines 52–80) -/

/-- The per-file data parsed from the detailed report: the list of reported
line numbers for each anomaly kind. -/
structure FileData where
  token_like : List Nat
  unusual_symbols : List Nat
  latin_in_russian : List Nat
  multiple_unusual_chars : List Nat
deriving DecidableEq, Repr

/-- Descending-by-count order used by `create_summary` (`sort(key=...,
reverse=True)`); the tie-breaking order of the stable Python sort is not
modelled, only sortedness and membership. -/
def countGE (a b : String × Nat) : Prop := b.2 ≤ a.2

instance : DecidableRel countGE := fun a b => Nat.decLe b.2 a.2

instance : IsTotal (String × Nat) countGE := ⟨fun a b => Nat.le_total b.2 a.2⟩

instance : IsTrans (String × Nat) countGE := ⟨fun _ _ _ h h' => Nat.le_trans h' h⟩

def sortByCountDesc (l : List (String × Nat)) : List (String × Nat) :=
  l.insertionSort countGE

/-- List `files_with_tokens` (lines 67–68, 77). -/
def files_with_tokens (data : List (String × FileData)) : List (String × Nat) :=
  sortByCountDesc (data.filterMap (fun fd =>
    if fd.2.token_like.isEmpty then none else some (fd.1, fd.2.token_like.length)))

/-- List `files_with_multiple_unusual` (lines 69–70, 78). -/
def files_with_multiple_unusual (data : List (String × FileData)) : List (String × Nat) :=
  sortByCountDesc (data.filterMap (fun fd =>
    if fd.2.multiple_unusual_chars.isEmpty then none
    else some (fd.1, fd.2.multiple_unusual_chars.length)))

/-- List `files_with_unusual_symbols` (lines 71–72, 79): files with more than 100
`unusual_symbols` hits. -/
def files_with_unusual_symbols (data : List (String × FileData)) : List (String × Nat) :=
  sortByCountDesc (data.filterMap (fun fd =>
    if 100 < fd.2.unusual_symbols.length then some (fd.1, fd.2.unusual_symbols.length)
    else none))

/-- List `files_with_latin` (lines 73–74, 80): files with more than 50
`latin_in_russian` hits. -/
def files_with_latin (data : List (String × FileData)) : List (String × Nat) :=
  sortByCountDesc (data.filterMap (fun fd =>
    if 50 < fd.2.latin_in_russian.length then some (fd.1, fd.2.latin_in_russian.length)
    else none))

/-! ### Notions used by the claims (spec wording), for comparison with the
source definitions above -/

/-- A Cyrillic character in the sense of the spec (Unicode Cyrillic block
U+0400–U+04FF). -/
def isCyrillicChar (c : Char) : Bool := decide (0x400 ≤ c.toNat ∧ c.toNat ≤ 0x4FF)

/-- The "maximal Latin-letter words" of a line as the claim reads them:
maximal runs of ASCII letters, with no word-boundary requirement.  This is
the claim notion; the source pattern `\b[A-Za-z]+\b`
(`latin_words` above) additionally requires the neighbours of a run not to be
word characters. -/
def latinRunsAux (cur : Option (List Char)) : List Char → List (List Char)
  | [] =>
      match cur with
      | some run => [run.reverse]
      | none => []
  | c :: cs =>
      if asciiLetter c then
        match cur with
        | some run => latinRunsAux (some (c :: run)) cs
        | none => latinRunsAux (some [c]) cs
      else
        match cur with
        | some run => run.reverse :: latinRunsAux none cs
        | none => latinRunsAux none cs

def latinRuns (line : List Char) : List (List Char) := latinRunsAux none line

end FindAnomalies

namespace FindAnomalies

/-! ## Helper lemmas -/

lemma find_eq_nil_of_chapter {line : List Char} (n : Nat)
    (h : is_likely_chapter_title line = true) : find_anomalies_in_line line n = [] := by
  unfold find_anomalies_in_line
  simp [h]

lemma find_eq_nil_of_strip_empty {line : List Char} (n : Nat)
    (h : pyStrip line = []) : find_anomalies_in_line line n = [] := by
  unfold find_anomalies_in_line
  simp [h]

lemma chapter_of_matches {line : List Char}
    (h : matchesAnyChapter (pyStrip line) = true) : is_likely_chapter_title line = true := by
  unfold is_likely_chapter_title
  have hne : (pyStrip line).isEmpty = false := by
    cases hs : pyStrip line with
    | nil =>
        rw [hs] at h
        simp [matchesAnyChapter, matchRomanLine, matchGlava, matchChast, matchGorCh,
          matchDigitsLine, matchCILit] at h
    | cons a l => simp
  simp [hne, h]

lemma chapter_of_shortCaps {line : List Char}
    (h : shortCapsTitle (pyStrip line) = true) : is_likely_chapter_title line = true := by
  unfold is_likely_chapter_title
  have hne : (pyStrip line).isEmpty = false := by
    cases hs : pyStrip line with
    | nil =>
        rw [hs] at h
        simp [shortCapsTitle, pyIsUpperStr] at h
    | cons a l => simp
  simp [hne, h]

lemma charsetRecords_eq_nil_of_no_russian {line : List Char} (n : Nat)
    (h : hasRussian line = false) : charsetRecords line n = [] := by
  unfold charsetRecords
  split
  · rfl
  · simp [h]

lemma dropWhile_no_space {l : List Char} (h : ∀ c ∈ l, pyIsSpace c = false) :
    l.dropWhile pyIsSpace = l := by
  cases l with
  | nil => rfl
  | cons a t => simp [List.dropWhile_cons, h a (by simp)]

lemma strip_of_no_space {l : List Char} (h : ∀ c ∈ l, pyIsSpace c = false) :
    pyStrip l = l := by
  unfold pyStrip
  rw [dropWhile_no_space h, dropWhile_no_space (by simpa using h), List.reverse_reverse]

lemma base64_no_space : ∀ c ∈ BASE64_CHARS, pyIsSpace c = false := by decide

lemma base64_lower_ascii : ∀ c ∈ BASE64_CHARS, (lowerChar c).toNat < 128 := by decide

lemma normal_usage_no_latin_record {line : List Char} (n : Nat)
    (h : is_normal_latin_usage line = true) :
    ∀ r ∈ find_anomalies_in_line line n, r.type ≠ AnomalyType.latin_in_russian := by
  intro r hmem
  unfold find_anomalies_in_line at hmem
  split at hmem
  · simp at hmem
  · split at hmem
    · simp at hmem
      subst hmem
      simp
    · rw [List.mem_append] at hmem
      rcases hmem with hmem | hmem
      · unfold charsetRecords at hmem
        split at hmem
        · simp at hmem
        · split at hmem
          · rw [List.mem_append] at hmem
            rcases hmem with hmem | hmem
            · simp [h] at hmem
            · split at hmem
              · simp at hmem
                subst hmem
                simp
              · simp at hmem
          · simp at hmem
      · split at hmem
        · simp at hmem
          subst hmem
          simp
        · simp at hmem

/-! ## Claims -/

/-- C3: for every line whose trimmed content matches a chapter pattern, or is
empty/whitespace-only, or is shorter than 30 characters, all-uppercase and
alphabetic ignoring spaces, `find_anomalies_in_line` returns the empty
sequence at any line number. -/
theorem chapter_or_blank_lines_yield_no_records (line : List Char) (n : Nat)
    (h : matchesAnyChapter (pyStrip line) = true ∨ pyStrip line = [] ∨
         shortCapsTitle (pyStrip line) = true) :
    find_anomalies_in_line line n = [] := by
  rcases h with h | h | h
  · exact find_eq_nil_of_chapter n (chapter_of_matches h)
  · exact find_eq_nil_of_strip_empty n h
  · exact find_eq_nil_of_chapter n (chapter_of_shortCaps h)

/-- Witness for C3 at the concrete chapter heading `"ГЛАВА 1"`. -/
theorem chapter_or_blank_lines_yield_no_records_witness :
    find_anomalies_in_line "ГЛАВА 1".data 3 = [] :=
  chapter_or_blank_lines_yield_no_records "ГЛАВА 1".data 3 (Or.inl (by decide))

/-- C8: a line whose trimmed content consists solely of ASCII decimal digits
matches the `^\d+$` chapter pattern, so `find_anomalies_in_line` returns the
empty sequence for it, at any line number. -/
theorem digit_only_lines_yield_no_records (line : List Char) (n : Nat)
    (h1 : pyStrip line ≠ []) (h2 : (pyStrip line).all pyIsDigit = true) :
    find_anomalies_in_line line n = [] := by
  apply find_eq_nil_of_chapter n
  apply chapter_of_matches
  unfold matchesAnyChapter matchDigitsLine
  have : (pyStrip line).isEmpty = false := by
    cases hs : pyStrip line with
    | nil => exact absurd hs h1
    | cons a l => simp
  simp [this, h2]

/-- Witness for C8 at the concrete digit line `"  123  "` (51 would also do:
the length of the digit run is irrelevant). -/
theorem digit_only_lines_yield_no_records_witness :
    find_anomalies_in_line "  123  ".data 7 = [] :=
  digit_only_lines_yield_no_records "  123  ".data 7 (by decide) (by decide)

/-- C2 counterexample: the line `"aaaa 1"` contains no Cyrillic character at
all, yet `find_anomalies_in_line` produces a `latin_in_russian` record for it
(`RUSSIAN_CHARS` also contains the ASCII digits, so the digit `1` alone
switches the Latin/other check on). -/
theorem no_cyrillic_line_with_latin_record :
    ("aaaa 1".data.all (fun c => !isCyrillicChar c)) = true ∧
    find_anomalies_in_line "aaaa 1".data 1 =
      [⟨.latin_in_russian, 1, [(0, 'a'), (1, 'a'), (2, 'a'), (3, 'a')], "aaaa 1".data⟩] := by
  constructor
  · decide
  · decide

/-- C2 (amended): for every line containing no character of `RUSSIAN_CHARS`
(Cyrillic letters *or ASCII digits*), `find_anomalies_in_line` never produces
a `latin_in_russian` or `unusual_symbols` record, at any line number. -/
theorem no_russian_chars_no_latin_or_unusual (line : List Char) (n : Nat)
    (h : ∀ c ∈ line, c ∉ RUSSIAN_CHARS) :
    ∀ r ∈ find_anomalies_in_line line n,
      r.type ≠ AnomalyType.latin_in_russian ∧ r.type ≠ AnomalyType.unusual_symbols := by
  have hr : hasRussian line = false := by
    unfold hasRussian
    simp only [List.any_eq_false, decide_eq_true_eq]
    exact h
  intro r hmem
  unfold find_anomalies_in_line at hmem
  split at hmem
  · simp at hmem
  · split at hmem
    · simp at hmem
      subst hmem
      exact ⟨by simp, by simp⟩
    · rw [charsetRecords_eq_nil_of_no_russian n hr] at hmem
      simp at hmem
      rcases hmem with ⟨-, hmem⟩
      subst hmem
      exact ⟨by simp, by simp⟩

/-- Witness for C2 (amended) at the line `"†††"`, which contains no
`RUSSIAN_CHARS` character and produces a `multiple_unusual_chars` record. -/
theorem no_russian_chars_no_latin_or_unusual_witness :
    (⟨AnomalyType.multiple_unusual_chars, 1, [], "†††".data⟩ : AnomalyRecord) ∈
      find_anomalies_in_line "†††".data 1 ∧
    (⟨AnomalyType.multiple_unusual_chars, 1, [], "†††".data⟩ : AnomalyRecord).type ≠
        AnomalyType.latin_in_russian ∧
    (⟨AnomalyType.multiple_unusual_chars, 1, [], "†††".data⟩ : AnomalyRecord).type ≠
        AnomalyType.unusual_symbols :=
  ⟨by decide,
   no_russian_chars_no_latin_or_unusual "†††".data 1 (by decide) _ (by decide)⟩

/-- C9 counterexample: in the line `"a1b2c3d4я"` every maximal Latin-letter
word has length 1 ≤ 3, yet a `latin_in_russian` record is emitted: the four
single-letter runs are adjacent to digits, so `\b[A-Za-z]+\b` finds no words
at all and the "normal Latin usage" exemption does not apply. -/
theorem short_latin_words_line_with_latin_record :
    ((latinRuns "a1b2c3d4я".data).all
      (fun w => decide (w.length ≤ 3) ||
        decide (w.map upperChar ∈ COMMON_ABBREVS))) = true ∧
    latin_words "a1b2c3d4я".data = [] ∧
    find_anomalies_in_line "a1b2c3d4я".data 1 =
      [⟨.latin_in_russian, 1, [(0, 'a'), (2, 'b'), (4, 'c'), (6, 'd')], "a1b2c3d4я".data⟩] :=
  ⟨by decide, by decide, by decide⟩

/-- C9 (amended): for every line with at least one boundary-delimited Latin
word (as found by `\b[A-Za-z]+\b`) in which every such word has length at
most 3 or is, case-insensitively, one of the fixed abbreviations,
`find_anomalies_in_line` never emits a `latin_in_russian` record, at any line
number. -/
theorem all_short_or_abbrev_latin_words_no_latin_record (line : List Char) (n : Nat)
    (h1 : latin_words line ≠ [])
    (h2 : ∀ w ∈ latin_words line, w.length ≤ 3 ∨ w.map upperChar ∈ COMMON_ABBREVS) :
    ∀ r ∈ find_anomalies_in_line line n, r.type ≠ AnomalyType.latin_in_russian := by
  apply normal_usage_no_latin_record
  unfold is_normal_latin_usage
  have hne : (latin_words line).isEmpty = false := by
    cases hw : latin_words line with
    | nil => exact absurd hw h1
    | cons a t => simp
  have hall : (latin_words line).all
      (fun w => decide (w.map upperChar ∈ COMMON_ABBREVS) || decide (w.length ≤ 3)) = true := by
    rw [List.all_eq_true]
    intro w hw
    rcases h2 w hw with h | h <;> simp [h]
  simp [hne, hall]

/-- Witness for C9 (amended) at the line `"яя ok †††"`: the only
boundary-delimited Latin word is `ok` (length 2), and the produced
`unusual_symbols` record is not `latin_in_russian`. -/
theorem all_short_or_abbrev_latin_words_no_latin_record_witness :
    (⟨AnomalyType.unusual_symbols, 2, [(6, '†'), (7, '†'), (8, '†')], "яя ok †††".data⟩ :
        AnomalyRecord) ∈ find_anomalies_in_line "яя ok †††".data 2 ∧
    (⟨AnomalyType.unusual_symbols, 2, [(6, '†'), (7, '†'), (8, '†')], "яя ok †††".data⟩ :
        AnomalyRecord).type ≠ AnomalyType.latin_in_russian :=
  ⟨by decide,
   all_short_or_abbrev_latin_words_no_latin_record "яя ok †††".data 2 (by decide)
     (by decide) _ (by decide)⟩

/-- C5 counterexample: the line `"Привет XYZ мир"` contains only 3 Latin
letters (not 4 as the scenario says); 3 is not above the `> 3` threshold —
and `XYZ` is a single word of length 3, which counts as normal Latin usage —
so `find_anomalies_in_line` returns no record at all. -/
theorem privet_xyz_line_yields_no_record :
    find_anomalies_in_line "Привет XYZ мир".data 1 = [] := by decide

/-- C5 (amended): for the input line `"Привет WXYZ мир"` (4 Latin letters
inside a Cyrillic sentence) at any line number `n`, `find_anomalies_in_line`
returns exactly one `latin_in_russian` record with line number `n` whose
`chars` list contains the 4 offsets of the Latin letters. -/
theorem privet_wxyz_line_yields_latin_record (n : Nat) :
    find_anomalies_in_line "Привет WXYZ мир".data n =
      [⟨.latin_in_russian, n, [(7, 'W'), (8, 'X'), (9, 'Y'), (10, 'Z')],
        "Привет WXYZ мир".data⟩] := rfl

/-- C1 counterexample: a trimmed line of exactly 40 base64-alphabet
characters containing `=` (38 `A`s followed by `==`) satisfies the stated
conditions (length at least 40, base64 alphabet only, contains `=`), yet
`find_anomalies_in_line` returns no record at all: `is_base64_like` requires
the stripped length to be *strictly greater* than 40. -/
theorem length_forty_base64_line_yields_no_record :
    (40 ≤ (List.replicate 38 'A' ++ ['=', '=']).length ∧
     (∀ c ∈ List.replicate 38 'A' ++ ['=', '='], c ∈ BASE64_CHARS) ∧
     '=' ∈ List.replicate 38 'A' ++ ['=', '=']) ∧
    pyStrip (List.replicate 38 'A' ++ ['=', '=']) = List.replicate 38 'A' ++ ['=', '='] ∧
    find_anomalies_in_line (List.replicate 38 'A' ++ ['=', '=']) 1 = [] :=
  ⟨⟨by decide, by decide, by decide⟩, by decide, by decide⟩

lemma base64_head_not_glava_chast {c0 : Char} (hc0 : c0 ∈ BASE64_CHARS) :
    lowerChar c0 ≠ 'г' ∧ lowerChar c0 ≠ 'ч' := by
  have hl : (lowerChar c0).toNat < 128 := base64_lower_ascii c0 hc0
  have hg : ('г').toNat = 1075 := by decide
  have hc : ('ч').toNat = 1095 := by decide
  constructor
  · intro hcontra
    have := congrArg Char.toNat hcontra
    omega
  · intro hcontra
    have := congrArg Char.toNat hcontra
    omega

/-- C1 (amended): for every input line whose trimmed content has length at
least 41 (strictly greater than 40), consists only of base64-alphabet
characters, and contains at least one `=` or `/`, `find_anomalies_in_line`
returns exactly one `token_like` record and no record of any other kind, at
any line number. -/
theorem long_base64_trimmed_lines_yield_single_token (line : List Char) (n : Nat)
    (hlen : 41 ≤ (pyStrip line).length)
    (hchars : ∀ c ∈ pyStrip line, c ∈ BASE64_CHARS)
    (heq : '=' ∈ pyStrip line ∨ '/' ∈ pyStrip line) :
    find_anomalies_in_line line n = [⟨.token_like, n, [], pyStrip line⟩] := by
  obtain ⟨w, hw, hwe⟩ : ∃ w ∈ pyStrip line, w = '=' ∨ w = '/' := by
    rcases heq with h | h
    · exact ⟨'=', h, Or.inl rfl⟩
    · exact ⟨'/', h, Or.inr rfl⟩
  obtain ⟨c0, rest, hs⟩ : ∃ c0 rest, pyStrip line = c0 :: rest := by
    cases hsl : pyStrip line with
    | nil => rw [hsl] at hlen; simp at hlen
    | cons a t => exact ⟨a, t, rfl⟩
  have hc0 : c0 ∈ BASE64_CHARS := hchars c0 (by rw [hs]; simp)
  obtain ⟨hg, hc⟩ := base64_head_not_glava_chast hc0
  have hstrip : pyStrip (pyStrip line) = pyStrip line :=
    strip_of_no_space (fun c hc => base64_no_space c (hchars c hc))
  have hne : (pyStrip line).isEmpty = false := by rw [hs]; simp
  have hroman : matchRomanLine (pyStrip line) = false := by
    unfold matchRomanLine
    have hall : (pyStrip line).all romanChar = false := by
      rcases hallc : (pyStrip line).all romanChar
      · rfl
      · rw [List.all_eq_true] at hallc
        have := hallc w hw
        rcases hwe with rfl | rfl <;> exact absurd this (by decide)
    simp [hall]
  have hdg : "глава".data = 'г' :: 'л' :: 'а' :: 'в' :: 'а' :: [] := rfl
  have hdc : "часть".data = 'ч' :: 'а' :: 'с' :: 'т' :: 'ь' :: [] := rfl
  have hlg : lowerChar 'г' = 'г' := by decide
  have hlc : lowerChar 'ч' = 'ч' := by decide
  have hglava : matchGlava (pyStrip line) = false := by
    unfold matchGlava
    rw [hs, hdg]
    simp only [matchCILit, hlg]
    rw [if_neg hg]
  have hchast : matchChast (pyStrip line) = false := by
    unfold matchChast
    rw [hs, hdc]
    simp only [matchCILit, hlc]
    rw [if_neg hc]
  have hgorch : matchGorCh (pyStrip line) = false := by
    unfold matchGorCh
    rw [hs]
    simp [hg, hc]
  have hdigits : matchDigitsLine (pyStrip line) = false := by
    unfold matchDigitsLine
    have hall : (pyStrip line).all pyIsDigit = false := by
      rcases hallc : (pyStrip line).all pyIsDigit
      · rfl
      · rw [List.all_eq_true] at hallc
        have := hallc w hw
        rcases hwe with rfl | rfl <;> exact absurd this (by decide)
    simp [hall]
  have hshort : shortCapsTitle (pyStrip line) = false := by
    unfold shortCapsTitle
    have : decide ((pyStrip line).length < 30) = false := by
      simp only [decide_eq_false_iff_not]
      omega
    simp [this]
  have hchap : is_likely_chapter_title line = false := by
    unfold is_likely_chapter_title
    rw [if_neg (by simp [hne])]
    simp [matchesAnyChapter, hroman, hglava, hchast, hgorch, hdigits, hshort]
  have hb64 : is_base64_like (pyStrip line) = true := by
    unfold is_base64_like
    rw [if_neg (by omega)]
    have h1 : (pyStrip (pyStrip line)).all (fun c => decide (c ∈ BASE64_CHARS)) = true := by
      rw [hstrip, List.all_eq_true]
      intro c hcm
      simpa using hchars c hcm
    have h2 : (decide ('=' ∈ pyStrip line) || decide ('/' ∈ pyStrip line)) = true := by
      rcases heq with h | h <;> simp [h]
    have h3 : decide (40 < (pyStrip line).length) = true := by
      simp only [decide_eq_true_eq]
      omega
    rw [hstrip] at h1 ⊢
    simp [h1, h2, h3]
  unfold find_anomalies_in_line
  rw [if_neg (by simp [hne, hchap]), if_pos hb64]

/-- Witness for C1 (amended) at the 41-character line of 39 `A`s followed by
`==`. -/
theorem long_base64_trimmed_lines_yield_single_token_witness :
    find_anomalies_in_line (List.replicate 39 'A' ++ ['=', '=']) 1 =
      [⟨.token_like, 1, [], pyStrip (List.replicate 39 'A' ++ ['=', '='])⟩] :=
  long_base64_trimmed_lines_yield_single_token (List.replicate 39 'A' ++ ['=', '=']) 1
    (by decide) (by decide) (by decide)

lemma mem_latin_chars {ln : List Char} {p : Nat × Char} (hp : p ∈ latin_chars ln) :
    ln[p.1]? = some p.2 ∧ p.2 ∉ ALLOWED_CHARS ∧ pyAsciiAlpha p.2 = true := by
  unfold latin_chars suspiciousChars at hp
  rw [List.mem_filter] at hp
  obtain ⟨hp, halpha⟩ := hp
  rw [List.mem_filter] at hp
  obtain ⟨hp, hallowed⟩ := hp
  rw [List.mem_enum_iff_getElem?] at hp
  refine ⟨hp, ?_, halpha⟩
  simpa using hallowed

lemma mem_other_chars {ln : List Char} {p : Nat × Char} (hp : p ∈ other_chars ln) :
    ln[p.1]? = some p.2 ∧ p.2 ∉ ALLOWED_CHARS ∧ pyAsciiAlpha p.2 = false := by
  unfold other_chars suspiciousChars at hp
  rw [List.mem_filter] at hp
  obtain ⟨hp, -⟩ := hp
  rw [List.mem_filter] at hp
  obtain ⟨hp, halpha⟩ := hp
  rw [List.mem_filter] at hp
  obtain ⟨hp, hallowed⟩ := hp
  rw [List.mem_enum_iff_getElem?] at hp
  refine ⟨hp, by simpa using hallowed, by simpa using halpha⟩

/-- C10: in every record produced by `find_anomalies_in_line`, the `chars`
detail list has at most 10 entries, and every entry `(i, c)` satisfies
`line[i] = c` and `c ∉ ALLOWED_CHARS`; moreover in a `latin_in_russian`
record every detail character is an ASCII letter, and in an
`unusual_symbols` record none is. -/
theorem detail_chars_sound (ln : List Char) (n : Nat) :
    ∀ r ∈ find_anomalies_in_line ln n,
      r.chars.length ≤ 10 ∧
      ∀ p ∈ r.chars,
        ln[p.1]? = some p.2 ∧ p.2 ∉ ALLOWED_CHARS ∧
        (r.type = AnomalyType.latin_in_russian → pyAsciiAlpha p.2 = true) ∧
        (r.type = AnomalyType.unusual_symbols → pyAsciiAlpha p.2 = false) := by
  intro r hmem
  unfold find_anomalies_in_line at hmem
  split at hmem
  · simp at hmem
  · split at hmem
    · simp at hmem
      subst hmem
      exact ⟨by simp, by simp⟩
    · rw [List.mem_append] at hmem
      rcases hmem with hmem | hmem
      · unfold charsetRecords at hmem
        split at hmem
        · simp at hmem
        · split at hmem
          · rw [List.mem_append] at hmem
            rcases hmem with hmem | hmem
            · split at hmem
              · simp at hmem
                subst hmem
                refine ⟨by simp [List.length_take_le], ?_⟩
                intro p hp
                have hp' := mem_latin_chars ((List.take_sublist 10 _).subset hp)
                exact ⟨hp'.1, hp'.2.1, fun _ => hp'.2.2, by simp⟩
              · simp at hmem
            · split at hmem
              · simp at hmem
                subst hmem
                refine ⟨by simp [List.length_take_le], ?_⟩
                intro p hp
                have hp' := mem_other_chars ((List.take_sublist 10 _).subset hp)
                exact ⟨hp'.1, hp'.2.1, by simp, fun _ => hp'.2.2⟩
              · simp at hmem
          · simp at hmem
      · split at hmem
        · simp at hmem
          subst hmem
          exact ⟨by simp, by simp⟩
        · simp at hmem

/-- Witness for C10 at the line `"aaaa 1"` and its `latin_in_russian`
record. -/
theorem detail_chars_sound_witness :
    ("aaaa 1".data[(0 : Nat)]? = some 'a' ∧ 'a' ∉ ALLOWED_CHARS ∧
      (AnomalyType.latin_in_russian = AnomalyType.latin_in_russian →
        pyAsciiAlpha 'a' = true) ∧
      (AnomalyType.latin_in_russian = AnomalyType.unusual_symbols →
        pyAsciiAlpha 'a' = false)) :=
  ((detail_chars_sound "aaaa 1".data 1
      ⟨.latin_in_russian, 1, [(0, 'a'), (1, 'a'), (2, 'a'), (3, 'a')], "aaaa 1".data⟩
      (by decide)).2 (0, 'a') (by decide))

lemma dedupAux_spec (rs : List AnomalyRecord) :
    ∀ seen : List (Nat × AnomalyType),
      ((dedupAux seen rs).map recKey).Nodup ∧
      ∀ k ∈ (dedupAux seen rs).map recKey, k ∉ seen := by
  induction rs with
  | nil => intro seen; simp [dedupAux]
  | cons a rest ih =>
    intro seen
    unfold dedupAux
    by_cases hk : recKey a ∈ seen
    · rw [if_pos hk]
      exact ih seen
    · rw [if_neg hk]
      obtain ⟨hnodup, hfresh⟩ := ih (recKey a :: seen)
      refine ⟨?_, ?_⟩
      · simp only [List.map_cons, List.nodup_cons]
        exact ⟨fun hmem => (hfresh _ hmem) (by simp), hnodup⟩
      · intro k hkmem
        simp only [List.map_cons, List.mem_cons] at hkmem
        rcases hkmem with rfl | hkmem
        · exact hk
        · intro hks
          exact (hfresh k hkmem) (by simp [hks])

/-- C4: the anomaly list produced by the file analysis contains at most one
record per `(line_number, kind)` pair; and a line satisfying both the
`unusual_symbols` condition and the `multiple_unusual_chars` condition yields
exactly one record of each of those two kinds. -/
theorem at_most_one_record_per_line_and_kind :
    (∀ lines : List (List Char),
      (((analyze_lines lines).anomalies).map recKey).Nodup) ∧
    ∀ (line : List Char) (n : Nat),
      (pyStrip line).isEmpty = false →
      is_likely_chapter_title line = false →
      is_base64_like (pyStrip line) = false →
      hasRussian line = true →
      other_chars line ≠ [] →
      hasRun3 line = true →
      ((find_anomalies_in_line line n).filter
          (fun r => decide (r.type = AnomalyType.unusual_symbols))).length = 1 ∧
      ((find_anomalies_in_line line n).filter
          (fun r => decide (r.type = AnomalyType.multiple_unusual_chars))).length = 1 := by
  constructor
  · intro lines
    exact (dedupAux_spec (allLineRecords lines) []).1
  · intro line n h1 h2 h3 h4 h5 h6
    have hsusp : (suspiciousChars line).isEmpty = false := by
      cases hx : suspiciousChars line with
      | nil =>
          exfalso
          apply h5
          unfold other_chars
          rw [hx]
          rfl
      | cons a t => simp
    have hother : (other_chars line).isEmpty = false := by
      cases hx : other_chars line with
      | nil => exact absurd hx h5
      | cons a t => simp
    unfold find_anomalies_in_line
    rw [if_neg (by simp [h1, h2]), if_neg (by simp [h3])]
    unfold charsetRecords
    rw [if_neg (by simp [hsusp]), if_pos h4, if_pos h6]
    by_cases hl : (!(latin_chars line).isEmpty && !is_normal_latin_usage line &&
        decide (3 < (latin_chars line).length)) = true
    · rw [if_pos hl, if_pos (by simp [hother])]
      simp [List.filter_append]
    · rw [if_neg hl, if_pos (by simp [hother])]
      simp [List.filter_append]

/-- Witness for C4 at the single-line file `"я €€€"`, whose line satisfies
both the `unusual_symbols` and the `multiple_unusual_chars` condition. -/
theorem at_most_one_record_per_line_and_kind_witness :
    (((analyze_lines ["я €€€".data]).anomalies).map recKey).Nodup ∧
    ((find_anomalies_in_line "я €€€".data 1).filter
        (fun r => decide (r.type = AnomalyType.unusual_symbols))).length = 1 ∧
    ((find_anomalies_in_line "я €€€".data 1).filter
        (fun r => decide (r.type = AnomalyType.multiple_unusual_chars))).length = 1 :=
  ⟨at_most_one_record_per_line_and_kind.1 ["я €€€".data],
   at_most_one_record_per_line_and_kind.2 "я €€€".data 1
     (by decide) (by decide) (by decide) (by decide) (by decide) (by decide)⟩

/-- C6: successful reads (UTF-8, or cp1251 after a decode failure) yield a
`FileResult`; a failed cp1251 retry or any other read failure yields an error
result carrying a message; and an error file never stops the run — the files
before and after it are processed exactly as they would be on their own, and
the error file is omitted from `files_with_anomalies`. -/
theorem read_errors_are_per_file_and_nonfatal :
    (∀ lines, analyze_file (ReadOutcome.utf8Ok lines) = .ok (analyze_lines lines)) ∧
    (∀ lines, analyze_file (ReadOutcome.cp1251Ok lines) = .ok (analyze_lines lines)) ∧
    (∀ e, analyze_file (ReadOutcome.decodeRetryFailed e) =
      .error ("Не удалось прочитать файл: " ++ e)) ∧
    (∀ e, analyze_file (ReadOutcome.readFailed e) =
      .error ("Ошибка при чтении файла: " ++ e)) ∧
    (∀ pre (f : String × ReadOutcome) post,
      runAll (pre ++ f :: post) = runAll pre ++ (f.1, analyze_file f.2) :: runAll post) ∧
    (∀ pre post name e,
      files_with_anomalies (pre ++ (name, ReadOutcome.decodeRetryFailed e) :: post) =
        files_with_anomalies pre ++ files_with_anomalies post ∧
      files_with_anomalies (pre ++ (name, ReadOutcome.readFailed e) :: post) =
        files_with_anomalies pre ++ files_with_anomalies post) := by
  refine ⟨fun lines => rfl, fun lines => rfl, fun e => rfl, fun e => rfl, ?_, ?_⟩
  · intro pre f post
    unfold runAll
    simp
  · intro pre post name e
    constructor <;>
      · unfold files_with_anomalies
        rw [List.filterMap_append, List.filterMap_cons]
        simp [analyze_file]

/-- C7: the threshold sections of the summary contain exactly the files whose
`unusual_symbols` hit count exceeds 100 (respectively whose
`latin_in_russian` hit count exceeds 50), and all four file lists of the
summary are sorted by hit count in descending order. -/
theorem summary_thresholds_and_descending_order (data : List (String × FileData)) :
    (∀ p : String × Nat,
      p ∈ files_with_unusual_symbols data ↔
        ∃ fd ∈ data, 100 < fd.2.unusual_symbols.length ∧
          p = (fd.1, fd.2.unusual_symbols.length)) ∧
    (∀ p : String × Nat,
      p ∈ files_with_latin data ↔
        ∃ fd ∈ data, 50 < fd.2.latin_in_russian.length ∧
          p = (fd.1, fd.2.latin_in_russian.length)) ∧
    List.Sorted countGE (files_with_tokens data) ∧
    List.Sorted countGE (files_with_multiple_unusual data) ∧
    List.Sorted countGE (files_with_unusual_symbols data) ∧
    List.Sorted countGE (files_with_latin data) := by
  refine ⟨?_, ?_, ?_, ?_, ?_, ?_⟩
  · intro p
    unfold files_with_unusual_symbols sortByCountDesc
    rw [List.mem_insertionSort, List.mem_filterMap]
    constructor
    · rintro ⟨fd, hfd, hsome⟩
      rw [Option.ite_none_right_eq_some, Option.some_inj] at hsome
      exact ⟨fd, hfd, hsome.1, hsome.2.symm⟩
    · rintro ⟨fd, hfd, hlt, rfl⟩
      exact ⟨fd, hfd, by rw [if_pos hlt]⟩
  · intro p
    unfold files_with_latin sortByCountDesc
    rw [List.mem_insertionSort, List.mem_filterMap]
    constructor
    · rintro ⟨fd, hfd, hsome⟩
      rw [Option.ite_none_right_eq_some, Option.some_inj] at hsome
      exact ⟨fd, hfd, hsome.1, hsome.2.symm⟩
    · rintro ⟨fd, hfd, hlt, rfl⟩
      exact ⟨fd, hfd, by rw [if_pos hlt]⟩
  · exact List.sorted_insertionSort countGE _
  · exact List.sorted_insertionSort countGE _
  · exact List.sorted_insertionSort countGE _
  · exact List.sorted_insertionSort countGE _

end FindAnomalies
